import Mathlib

/-!
Verification development for the Shift_JIS converter (src/sjis_converter.py).

The Python program is shallowly embedded as follows:
* file paths are lists of characters (Python strings), byte contents are
  lists of naturals;
* the file system is a function from paths to optional contents; directory
  existence, `os.path.abspath` and the current working directory are oracles;
* external collaborators (chardet, the Python codec machinery, the
  interactive overwrite prompt, `tempfile.mkstemp`'s fresh name) are
  parameters of the embedded functions;
* fallible I/O is modelled by `Option` inputs (`none` = the read raised) or
  explicit exception-injection parameters mirroring the `try/except` blocks.
-/

abbrev FPath := List Char

abbrev Bytes := List Nat

def pstr (s : String) : FPath := s.data

/-- The file system: a map from (absolute) paths to file contents. -/
def Fs := FPath → Option Bytes

def fsGet (fs : Fs) (p : FPath) : Option Bytes := fs p

def fsSet (fs : Fs) (p : FPath) (v : Bytes) : Fs :=
  fun q => if q = p then some v else fs q

def fsRemove (fs : Fs) (p : FPath) : Fs :=
  fun q => if q = p then none else fs q

/-- `shutil.move src dst` on one file system: `dst` receives `src`'s content,
`src` disappears (POSIX rename overwrites an existing `dst`). -/
def fsMove (fs : Fs) (src dst : FPath) : Fs :=
  fun q => if q = src then none else if q = dst then fs src else fs q

def fsExists (fs : Fs) (p : FPath) : Bool := (fsGet fs p).isSome

theorem fsGet_fsSet_self (fs : Fs) (p : FPath) (v : Bytes) :
    fsGet (fsSet fs p v) p = some v := by
  simp [fsGet, fsSet]

theorem fsGet_fsSet_ne (fs : Fs) (p q : FPath) (v : Bytes) (h : q ≠ p) :
    fsGet (fsSet fs p v) q = fsGet fs q := by
  simp [fsGet, fsSet, h]

theorem fsGet_fsRemove_self (fs : Fs) (p : FPath) :
    fsGet (fsRemove fs p) p = none := by
  simp [fsGet, fsRemove]

theorem fsGet_fsRemove_ne (fs : Fs) (p q : FPath) (h : q ≠ p) :
    fsGet (fsRemove fs p) q = fsGet fs q := by
  simp [fsGet, fsRemove, h]

theorem fsGet_fsMove_src (fs : Fs) (src dst : FPath) :
    fsGet (fsMove fs src dst) src = none := by
  simp [fsGet, fsMove]

theorem fsGet_fsMove_dst (fs : Fs) (src dst : FPath) (h : dst ≠ src) :
    fsGet (fsMove fs src dst) dst = fsGet fs src := by
  simp [fsGet, fsMove, h]

theorem fsGet_fsMove_ne (fs : Fs) (src dst q : FPath) (h1 : q ≠ src) (h2 : q ≠ dst) :
    fsGet (fsMove fs src dst) q = fsGet fs q := by
  simp [fsGet, fsMove, h1, h2]

/-! ### Configuration constants (class Config, lines 9-19) -/

namespace Config

def MAX_FILE_SIZE : Nat := 100 * 1024 * 1024

def CHUNK_SIZE : Nat := 65536

def DETECTION_SAMPLE_SIZE : Nat := 65536

def COMPATIBILITY_CHECK_SIZE : Nat := 1024

def SJIS_SUFFIX : FPath := pstr "_sjis"

def SJISX_SUFFIX : FPath := pstr "_sjisx"

def ENCODING_SHIFT_JIS : String := "SHIFT_JIS"

def ENCODING_UTF8 : String := "UTF-8"

def ENCODING_UTF8_SIG_BOM : String := "UTF-8-SIG（BOMあり）"

def DEFAULT_READ_ENCODING_FOR_ASCII : String := "utf-8"

end Config

/-! ### POSIX path manipulation (os.path.basename / dirname / splitext / join) -/

/-- Python `os.path.basename`: everything after the last slash. -/
def basename (p : FPath) : FPath :=
  (p.reverse.takeWhile (fun c => c != '/')).reverse

/-- The part of `p` up to and including the last slash (`p[:i+1]` for
`i = p.rfind sep` in posixpath). -/
def dropBase (p : FPath) : FPath :=
  (p.reverse.dropWhile (fun c => c != '/')).reverse

def stripTrailingSlashes (p : FPath) : FPath :=
  (p.reverse.dropWhile (fun c => c == '/')).reverse

/-- Python `os.path.dirname` (posix): head of the path, with trailing slashes
stripped unless the head consists only of slashes. -/
def dirname (p : FPath) : FPath :=
  let head := dropBase p
  if !head.isEmpty && head.any (fun c => c != '/') then stripTrailingSlashes head
  else head

/-- Python `os.path.splitext` restricted to a slash-free file name (the
source applies it to `os.path.basename`): split at the last dot, provided
some non-dot character precedes it; a name whose every pre-dot character is
a dot (for instance `.bashrc`) keeps its extension empty. -/
def splitext (f : FPath) : FPath × FPath :=
  match f.reverse.dropWhile (fun c => c != '.') with
  | [] => (f, [])
  | _ :: before =>
    if before.reverse.any (fun c => c != '.') then
      (before.reverse, '.' :: (f.reverse.takeWhile (fun c => c != '.')).reverse)
    else (f, [])

/-- Python `os.path.join` (posix) for two components. -/
def pathJoin (d m : FPath) : FPath :=
  if m.head? = some '/' then m
  else if d.isEmpty || d.getLast? == some '/' then d ++ m else d ++ '/' :: m

/-! ### is_binary_file (lines 21-33) and has_bom_utf8 (lines 35-41)

Both take the outcome of opening and reading the file: `none` means the
read raised an exception, `some content` gives the file's bytes (the
functions themselves apply the 1024-byte / 3-byte bounds). -/

def is_binary_file (readRes : Option Bytes) : Bool :=
  match readRes with
  | none => true
  | some content =>
    let chunk := content.take 1024
    if chunk.isEmpty then false
    else if [0xff, 0xfe].isPrefixOf chunk then false
    else if [0xfe, 0xff].isPrefixOf chunk then false
    else chunk.contains 0

def has_bom_utf8 (readRes : Option Bytes) : Bool :=
  match readRes with
  | none => false
  | some content => content.take 3 == [0xef, 0xbb, 0xbf]

/-! ### normalize_encoding_name (lines 43-63) and get_read_encoding (130-148)

Python's `str.lower` / `str.upper` / single-character `str.replace` are
modelled on the character list underlying the string; the case maps are the
ASCII ones, which agree with Python on every encoding name the mapping
table and the codec registry know. -/

def lowerChar (c : Char) : Char :=
  if 65 ≤ c.toNat ∧ c.toNat ≤ 90 then Char.ofNat (c.toNat + 32) else c

def upperChar (c : Char) : Char :=
  if 97 ≤ c.toNat ∧ c.toNat ≤ 122 then Char.ofNat (c.toNat - 32) else c

def strLower (s : String) : String := String.mk (s.data.map lowerChar)

def strUpper (s : String) : String := String.mk (s.data.map upperChar)

def strDashToUnderscore (s : String) : String :=
  String.mk (s.data.map (fun c => if c = '-' then '_' else c))

def normalize_encoding_name (encoding : String) : String :=
  if encoding = "" then encoding
  else
    let e := strLower encoding
    if e = "utf-8" ∨ e = "utf8" then Config.ENCODING_UTF8
    else if e = "utf-8-sig" ∨ e = "utf8-sig" then Config.ENCODING_UTF8_SIG_BOM
    else if e = "utf-16le" ∨ e = "utf16le" then "UTF-16LE"
    else if e = "utf-16be" ∨ e = "utf16be" then "UTF-16BE"
    else if e = "euc-jp" ∨ e = "eucjp" then "EUC-JP"
    else if e = "iso-2022-jp" ∨ e = "iso2022jp" then "ISO-2022-JP"
    else if e = "shift_jis" ∨ e = "shift-jis" ∨ e = "sjis" ∨ e = "cp932" ∨
        e = "windows-31j" then Config.ENCODING_SHIFT_JIS
    else if e = "windows-1252" then "WINDOWS-1252"
    else if e = "iso-8859-1" then "ISO-8859-1"
    else strUpper encoding

def get_read_encoding (encoding : String) : String :=
  if encoding = Config.ENCODING_UTF8_SIG_BOM then "utf-8-sig"
  else if encoding = Config.ENCODING_UTF8 then "utf-8"
  else if encoding = Config.ENCODING_SHIFT_JIS then "cp932"
  else if encoding = "EUC-JP" then "euc-jp"
  else if encoding = "ISO-2022-JP" then "iso-2022-jp"
  else if encoding = "WINDOWS-1252" then "windows-1252"
  else if encoding = "ISO-8859-1" then "iso-8859-1"
  else if encoding = "ASCII" then Config.DEFAULT_READ_ENCODING_FOR_ASCII
  else strDashToUnderscore (strLower encoding)

/-! ### detect_encoding (lines 72-128)

External collaborators are parameters:
* `chardetF` models `chardet.detect` restricted to its consumed output:
  a candidate name (`none` when chardet reports no encoding) and a
  confidence score;
* `utf8Valid` models Python's strict `bytes.decode` with the utf-8 codec
  succeeding (`test_utf8_decode`, lines 65-70);
* `exn` injects the exceptions handled by the two `except` clauses
  (lines 125-128); `none` means no exception was raised.
The file's bytes stand in for the `os.path.getsize` / `open` / `read`
results: `content.length` is the size and `content.take n` a leading read. -/

inductive DetectExn where
  | permission
  | other (msg : String)
deriving DecidableEq

/-- The failure reasons `detect_encoding` can report, one constructor per
`return None, ...` site; `lowConfidence` carries the raw (un-normalized)
chardet candidate name and the numeric confidence embedded in the
diagnostic string of line 123. -/
inductive DetectErr where
  | tooLarge (mb : Nat)
  | emptyFile
  | bomInvalid
  | binaryFile
  | chardetFailed
  | lowConfidence (rawName : String) (conf : Rat)
  | permissionDenied
  | otherError (msg : String)
deriving DecidableEq

def detect_encoding (exn : Option DetectExn) (content : Bytes)
    (chardetF : Bytes → Option String × Rat) (utf8Valid : Bytes → Bool) :
    Option String × Option DetectErr :=
  match exn with
  | some DetectExn.permission => (none, some DetectErr.permissionDenied)
  | some (DetectExn.other m) => (none, some (DetectErr.otherError m))
  | none =>
    let file_size := content.length
    if file_size > Config.MAX_FILE_SIZE then
      (none, some (DetectErr.tooLarge (file_size / (1024 * 1024))))
    else if file_size = 0 then (none, some DetectErr.emptyFile)
    else
      let raw_data := content.take (min file_size Config.DETECTION_SAMPLE_SIZE)
      if raw_data.isEmpty then (none, some DetectErr.emptyFile)
      else if [0xff, 0xfe].isPrefixOf raw_data then (some "UTF-16LE", none)
      else if [0xfe, 0xff].isPrefixOf raw_data then (some "UTF-16BE", none)
      else if [0xef, 0xbb, 0xbf].isPrefixOf raw_data then
        if utf8Valid (raw_data.drop 3) then (some Config.ENCODING_UTF8_SIG_BOM, none)
        else (none, some DetectErr.bomInvalid)
      else if is_binary_file (some content) then (none, some DetectErr.binaryFile)
      else
        -- line 103's `raw_data[3:] if has_utf8_bom else raw_data` always takes
        -- the second branch here: the utf-8-BOM case returned above.
        match chardetF raw_data with
        | (none, _) => (none, some DetectErr.chardetFailed)
        | (some name, confidence) =>
          let normalized := normalize_encoding_name name
          if (normalized = Config.ENCODING_UTF8 ∨ normalized = "ASCII") ∧
              utf8Valid raw_data = true then
            (some Config.ENCODING_UTF8, none)
          else if confidence > mkRat 8 10 then
            if normalized = Config.ENCODING_SHIFT_JIS ∧ utf8Valid raw_data = true then
              (some Config.ENCODING_UTF8, none)
            else (some normalized, none)
          else (none, some (DetectErr.lowConfidence name confidence))

/-! ### Compatibility scanner (lines 150-180)

The strict Shift_JIS codec is a pair of oracles `encC` (one character to
bytes, `none` = `UnicodeEncodeError`) and `decB` (bytes back to a string,
`none` = `UnicodeDecodeError`).  The scanner receives the decoded text the
`codecs.open(..., errors='replace')` stream produced — character
replacement makes that decoding total, so only the I/O layer can fail,
which `none` models (the `except` clause of lines 179-180). -/

def check_char_sjis_compatibility (encC : Nat → Option Bytes)
    (decB : Bytes → Option (List Nat)) (c : Nat) : Bool :=
  match encC c with
  | none => false
  | some bs =>
    match decB bs with
    | none => false
    | some cs => cs == [c]

/-- The chunked `while True` read loop of lines 164-175, with early exit on
the first incompatible character.  The fuel argument is instantiated with
the text length, an upper bound on the number of non-empty chunk reads. -/
def scanLoop (compat : Nat → Bool) : Nat → List Nat → Bool
  | 0, _ => false
  | fuel + 1, text =>
    if text.isEmpty then false
    else if (text.take Config.COMPATIBILITY_CHECK_SIZE).any (fun c => !compat c) then true
    else scanLoop compat fuel (text.drop Config.COMPATIBILITY_CHECK_SIZE)

def check_sjis_compatibility_stream (encC : Nat → Option Bytes)
    (decB : Bytes → Option (List Nat)) (readRes : Option (List Nat)) : Bool :=
  match readRes with
  | none => true
  | some text => scanLoop (check_char_sjis_compatibility encC decB) text.length text

/-! ### generate_output_filename (lines 182-202)

The function receives the already-absolutized input path (the orchestrator
passes `os.path.abspath(filepath)`, and `abspath` is idempotent), the
directory-existence oracle and the current working directory. -/

def generate_output_filename (abs_filepath : FPath) (has_incompatible_chars : Bool)
    (dirExistsF : FPath → Bool) (cwd : FPath) : FPath × FPath :=
  let original_dir0 := dirname abs_filepath
  let original_dir := if dirExistsF original_dir0 then original_dir0 else cwd
  let filename := basename abs_filepath
  let ne := splitext filename
  let new_filename :=
    if has_incompatible_chars then ne.1 ++ Config.SJISX_SUFFIX ++ ne.2
    else ne.1 ++ Config.SJIS_SUFFIX ++ ne.2
  (pathJoin original_dir new_filename, new_filename)

/-! ### convert_file_stream (lines 237-300) with create_temp_file_safely (204-235)

The call is modelled as a sequence of small steps over the file system, so
that every intermediate state is available for the atomicity claim:

* step `0`: `create_temp_file_safely` — `tempfile.mkstemp` creates the
  (fresh, exclusively owned) temp file empty;
* steps `1 … nc`: the `while True` decode/re-encode loop — after the
  `i`-th chunk the temp file holds the re-encoding of the first
  `i * CHUNK_SIZE` characters;
* step `nc+1`: `os.remove` of a pre-existing backup (inside
  `if os.path.exists(output)`); its failure is tolerated by the source
  (`except OSError: pass`), making it the only tolerated step;
* step `nc+2`: `shutil.move(output, backup)` when the destination exists;
* step `nc+3`: `shutil.move(temp, output)` — the single promotion rename;
* `finally`: remove the temp file if it still exists (skipped when step 0
  itself failed: `temp_file` is then still `None`, and
  `create_temp_file_safely` cleaned up after itself).

`failAt = some j` injects an OSError at step `j` (before it takes effect),
mirroring an arbitrary O/S failure; the `except` clauses of lines 285-294
turn it into a `(False, reason)` return after the `finally` cleanup.

The decoded text is produced by the same `errors='replace'` reading as the
scanner; `encChar` is the per-character Shift_JIS re-encoding with
`errors='replace'` (total by substitution), applied characterwise. -/

def encodeAll (encChar : Nat → Bytes) : List Nat → Bytes
  | [] => []
  | c :: cs => encChar c ++ encodeAll encChar cs

/-- Number of non-empty chunk reads the copy loop performs. -/
def numChunks (text : List Nat) : Nat :=
  (text.length + Config.CHUNK_SIZE - 1) / Config.CHUNK_SIZE

def backupName (output : FPath) : FPath := output ++ pstr ".backup"

def convOp (output temp : FPath) (text : List Nat) (encChar : Nat → Bytes)
    (nc : Nat) (i : Nat) (s : Fs) : Fs :=
  let backup := backupName output
  if i = 0 then fsSet s temp []
  else if i ≤ nc then fsSet s temp (encodeAll encChar (text.take (i * Config.CHUNK_SIZE)))
  else if i = nc + 1 then
    if fsExists s output && fsExists s backup then fsRemove s backup else s
  else if i = nc + 2 then
    if fsExists s output then fsMove s output backup else s
  else fsMove s temp output

structure ConvRun where
  trace : List Fs
  finalFs : Fs
  ok : Bool

/-- Step executor: runs `rem` steps starting at index `i`, stopping with a
failure on an injected exception unless the step tolerates it. -/
def convGo (op : Nat → Fs → Fs) (tol : Nat → Bool) (failAt : Option Nat) :
    Nat → Nat → Fs → ConvRun
  | 0, _, s => ⟨[], s, true⟩
  | rem + 1, i, s =>
    if failAt = some i then
      if tol i then
        let r := convGo op tol failAt rem (i + 1) s
        ⟨s :: r.trace, r.finalFs, r.ok⟩
      else ⟨[s], s, false⟩
    else
      let s2 := op i s
      let r := convGo op tol failAt rem (i + 1) s2
      ⟨s2 :: r.trace, r.finalFs, r.ok⟩

/-- The `finally` block, lines 295-300. -/
def cleanupTemp (temp : FPath) (s : Fs) : Fs :=
  if fsExists s temp then fsRemove s temp else s

def convert_file_stream (fs0 : Fs) (output temp : FPath) (text : List Nat)
    (encChar : Nat → Bytes) (failAt : Option Nat) : ConvRun :=
  let nc := numChunks text
  let r := convGo (convOp output temp text encChar nc) (fun i => i = nc + 1)
      failAt (nc + 4) 0 fs0
  let fin := if failAt = some 0 then r.finalFs else cleanupTemp temp r.finalFs
  ⟨fs0 :: (r.trace ++ [fin]), fin, r.ok⟩

/-! ### convert_to_sjis (lines 320-392), the per-file orchestrator -/

inductive Msg where
  | blank
  | fileNotFound
  | notAFile
  | emptyFileSkip
  | detectFail (e : DetectErr)
  | undetected
  | alreadySjisSkip
  | cancelledNoOverwrite
  | convertedTo (filename : FPath)
  | conversionFailed
  | outputNameError
deriving DecidableEq

structure ConversionResult where
  success : Bool
  message : Msg
  original_encoding : String
  has_incompatible_chars : Bool
  converted : Bool
  skipped : Bool
deriving DecidableEq

/-- Everything `convert_to_sjis` consults beyond its path argument: the file
system, the oracles for the excluded collaborators, and the
exception-injection knobs for the guarded operations. -/
structure ConvCtx where
  fs : Fs
  cwd : FPath
  absOf : FPath → FPath
  isDir : FPath → Bool
  chardetF : Bytes → Option String × Rat
  utf8Valid : Bytes → Bool
  decodeR : String → Bytes → List Nat
  encChar : Nat → Bytes
  encC : Nat → Option Bytes
  decB : Bytes → Option (List Nat)
  confirmAns : Bool
  tempPath : FPath
  detectExn : Option DetectExn
  scanExn : Bool
  nameExn : Bool
  convFailAt : Option Nat

/-- One conversion decision per file.  `confirm_overwrite` (lines 302-318)
is the boolean oracle `confirmAns` — it catches `EOFError` and
`KeyboardInterrupt` itself and answers `False` for them.  `nameExn`
injects the exception `generate_output_filename` may raise, which the
orchestrator's catch-all turns into a failure result.  Returns the result
record together with the file system after the call. -/
def convert_to_sjis (ctx : ConvCtx) (filepath : FPath) : ConversionResult × Fs :=
  if !(fsExists ctx.fs (ctx.absOf filepath) || ctx.isDir filepath) then
    (⟨false, Msg.fileNotFound, "", false, false, false⟩, ctx.fs)
  else
    let abs_filepath := ctx.absOf filepath
    if !fsExists ctx.fs abs_filepath then
      (⟨false, Msg.notAFile, "", false, false, false⟩, ctx.fs)
    else
      let content := (fsGet ctx.fs abs_filepath).getD []
      let dr := detect_encoding ctx.detectExn content ctx.chardetF ctx.utf8Valid
      match dr.2 with
      | some e =>
        if e = DetectErr.emptyFile then
          (⟨true, Msg.emptyFileSkip, "N/A", false, false, true⟩, ctx.fs)
        else (⟨false, Msg.detectFail e, "", false, false, false⟩, ctx.fs)
      | none =>
        match dr.1 with
        | none => (⟨false, Msg.undetected, "", false, false, false⟩, ctx.fs)
        | some encoding =>
          if encoding = Config.ENCODING_SHIFT_JIS then
            (⟨true, Msg.alreadySjisSkip, encoding, false, false, true⟩, ctx.fs)
          else
            let hasIncompat := check_sjis_compatibility_stream ctx.encC ctx.decB
                (if ctx.scanExn then none
                 else some (ctx.decodeR (get_read_encoding encoding) content))
            if ctx.nameExn then
              (⟨false, Msg.outputNameError, encoding, hasIncompat, false, false⟩, ctx.fs)
            else
              let np := generate_output_filename abs_filepath hasIncompat
                  ctx.isDir ctx.cwd
              if fsExists ctx.fs np.1 && !ctx.confirmAns then
                (⟨false, Msg.cancelledNoOverwrite, encoding, hasIncompat, false, true⟩,
                  ctx.fs)
              else
                let text := ctx.decodeR (get_read_encoding encoding) content
                let run := convert_file_stream ctx.fs np.1 ctx.tempPath text
                    ctx.encChar ctx.convFailAt
                if run.ok then
                  (⟨true, Msg.convertedTo np.2, encoding, hasIncompat, true, false⟩,
                    run.finalFs)
                else
                  (⟨false, Msg.conversionFailed, encoding, hasIncompat, false, false⟩,
                    run.finalFs)

/-! ### Helper lemmas about paths -/

theorem takeWhile_append_of_all {p : Char → Bool} (a b : List Char)
    (h : ∀ x ∈ a, p x = true) :
    (a ++ b).takeWhile p = a ++ b.takeWhile p := by
  induction a with
  | nil => simp
  | cons x xs ih =>
    have hx : p x = true := h x (by simp)
    simp [List.takeWhile_cons, hx, ih (fun y hy => h y (by simp [hy]))]

theorem dropWhile_head_false {p : Char → Bool} :
    ∀ (l : List Char) (x : Char) (xs : List Char), l.dropWhile p = x :: xs → p x = false := by
  intro l
  induction l with
  | nil => intro x xs h; simp at h
  | cons y ys ih =>
    intro x xs h
    by_cases hy : p y
    · rw [List.dropWhile_cons_of_pos hy] at h; exact ih x xs h
    · rw [List.dropWhile_cons_of_neg hy] at h
      cases h; simpa using hy

theorem splitext_append (f : FPath) : (splitext f).1 ++ (splitext f).2 = f := by
  unfold splitext
  split
  · simp
  · rename_i hd before h
    split
    · have hsplit := List.takeWhile_append_dropWhile (p := fun c => c != '.') (l := f.reverse)
      have hd_eq : hd = '.' := by
        simpa using dropWhile_head_false (p := fun c => c != '.') f.reverse hd before h
      rw [h, hd_eq] at hsplit
      show before.reverse ++ '.' :: (f.reverse.takeWhile (fun c => c != '.')).reverse = f
      calc before.reverse ++ '.' :: (f.reverse.takeWhile (fun c => c != '.')).reverse
          = (f.reverse.takeWhile (fun c => c != '.') ++ '.' :: before).reverse := by simp
        _ = f.reverse.reverse := by rw [hsplit]
        _ = f := List.reverse_reverse f
    · simp

theorem mem_basename_ne_slash (p : FPath) : ∀ c ∈ basename p, c ≠ '/' := by
  intro c hc
  unfold basename at hc
  rw [List.mem_reverse] at hc
  have := List.mem_takeWhile_imp hc
  simpa using this

theorem basename_append_no_slash (x y : FPath) (h : ∀ c ∈ y, c ≠ '/') :
    basename (x ++ y) = basename x ++ y := by
  unfold basename
  rw [List.reverse_append]
  rw [takeWhile_append_of_all _ _ (by
    intro c hc
    rw [List.mem_reverse] at hc
    simpa using h c hc)]
  simp

theorem basename_of_getLast_slash (d : FPath) (h : d.isEmpty || d.getLast? == some '/') :
    basename d = [] := by
  rcases Bool.or_eq_true_iff.mp h with h1 | h2
  · have hd : d = [] := by simpa [List.isEmpty_iff] using h1
    simp [hd, basename]
  · have hlast : d.getLast? = some '/' := by simpa using h2
    unfold basename
    have hrev : d.reverse.head? = some '/' := by
      rw [List.head?_reverse]; exact hlast
    cases hd : d.reverse with
    | nil => simp [hd] at hrev
    | cons c cs =>
      rw [hd] at hrev
      simp only [List.head?_cons, Option.some.injEq] at hrev
      subst hrev
      simp [List.takeWhile_cons]

theorem basename_pathJoin (d m : FPath) (hm : m ≠ []) (h : ∀ c ∈ m, c ≠ '/') :
    basename (pathJoin d m) = m := by
  have hhead : ¬ (m.head? = some '/') := by
    cases m with
    | nil => simp
    | cons c cs =>
      simp only [List.head?_cons, Option.some.injEq]
      exact h c (by simp)
  unfold pathJoin
  rw [if_neg hhead]
  split
  · rename_i hcond
    rw [basename_append_no_slash d m h, basename_of_getLast_slash d hcond]
    simp
  · have hsplit : d ++ '/' :: m = (d ++ ['/']) ++ m := by simp
    rw [hsplit, basename_append_no_slash _ _ h,
      basename_of_getLast_slash (d ++ ['/']) (by simp)]
    simp

theorem suffix_no_slash (flag : Bool) :
    ∀ c ∈ (if flag then Config.SJISX_SUFFIX else Config.SJIS_SUFFIX), c ≠ '/' := by
  cases flag <;> decide

theorem suffix_length_pos (flag : Bool) :
    0 < (if flag then Config.SJISX_SUFFIX else Config.SJIS_SUFFIX).length := by
  cases flag <;> decide

/-- The body of `generate_output_filename` in closed form. -/
theorem generate_output_filename_eq (a : FPath) (flag : Bool)
    (dirF : FPath → Bool) (cwd : FPath) :
    generate_output_filename a flag dirF cwd =
      (pathJoin (if dirF (dirname a) then dirname a else cwd)
        ((splitext (basename a)).1 ++ (if flag then Config.SJISX_SUFFIX else Config.SJIS_SUFFIX) ++
          (splitext (basename a)).2),
       (splitext (basename a)).1 ++ (if flag then Config.SJISX_SUFFIX else Config.SJIS_SUFFIX) ++
         (splitext (basename a)).2) := by
  unfold generate_output_filename
  cases flag <;> simp

theorem new_filename_no_slash (a : FPath) (flag : Bool) :
    ∀ c ∈ (splitext (basename a)).1 ++
      (if flag then Config.SJISX_SUFFIX else Config.SJIS_SUFFIX) ++ (splitext (basename a)).2,
      c ≠ '/' := by
  intro c hc
  rcases List.mem_append.mp hc with hc1 | hc2
  · rcases List.mem_append.mp hc1 with hc3 | hc4
    · exact mem_basename_ne_slash a c (by
        rw [← splitext_append (basename a)]; exact List.mem_append_left _ hc3)
    · exact suffix_no_slash flag c hc4
  · exact mem_basename_ne_slash a c (by
      rw [← splitext_append (basename a)]; exact List.mem_append_right _ hc2)

theorem new_filename_ne_nil (a : FPath) (flag : Bool) :
    (splitext (basename a)).1 ++
      (if flag then Config.SJISX_SUFFIX else Config.SJIS_SUFFIX) ++
      (splitext (basename a)).2 ≠ [] := by
  intro h
  have := congrArg List.length h
  simp only [List.length_append, List.length_nil] at this
  have := suffix_length_pos flag
  omega

theorem generate_output_ne (a : FPath) (flag : Bool) (dirF : FPath → Bool) (cwd : FPath) :
    (generate_output_filename a flag dirF cwd).1 ≠ a := by
  rw [generate_output_filename_eq]
  intro h
  simp only at h
  have hb := basename_pathJoin
    (if dirF (dirname a) then dirname a else cwd)
    ((splitext (basename a)).1 ++ (if flag then Config.SJISX_SUFFIX else Config.SJIS_SUFFIX) ++
      (splitext (basename a)).2)
    (new_filename_ne_nil a flag) (new_filename_no_slash a flag)
  rw [h] at hb
  have hba := splitext_append (basename a)
  have hlen := congrArg List.length hb
  have hlen2 := congrArg List.length hba
  simp only [List.length_append] at hlen hlen2
  have := suffix_length_pos flag
  omega

theorem generate_backup_ne (a : FPath) (flag : Bool) (dirF : FPath → Bool) (cwd : FPath) :
    backupName (generate_output_filename a flag dirF cwd).1 ≠ a := by
  rw [generate_output_filename_eq]
  intro h
  simp only [backupName] at h
  have hbk_ns : ∀ c ∈ pstr ".backup", c ≠ '/' := by decide
  have hout := basename_pathJoin
    (if dirF (dirname a) then dirname a else cwd)
    ((splitext (basename a)).1 ++ (if flag then Config.SJISX_SUFFIX else Config.SJIS_SUFFIX) ++
      (splitext (basename a)).2)
    (new_filename_ne_nil a flag) (new_filename_no_slash a flag)
  have hb := basename_append_no_slash
    (pathJoin (if dirF (dirname a) then dirname a else cwd)
      ((splitext (basename a)).1 ++ (if flag then Config.SJISX_SUFFIX else Config.SJIS_SUFFIX) ++
        (splitext (basename a)).2))
    (pstr ".backup") hbk_ns
  rw [h, hout] at hb
  have hba := splitext_append (basename a)
  have hlen := congrArg List.length hb
  have hlen2 := congrArg List.length hba
  simp only [List.length_append] at hlen hlen2
  have := suffix_length_pos flag
  have hbkl : 0 < (pstr ".backup").length := by decide
  omega

/-! ### Scanner lemmas -/

theorem scanLoop_eq_any (compat : Nat → Bool) :
    ∀ (fuel : Nat) (text : List Nat), text.length ≤ fuel →
    scanLoop compat fuel text = text.any (fun c => !compat c) := by
  intro fuel
  induction fuel with
  | zero =>
    intro text h
    have htext : text = [] := List.eq_nil_of_length_eq_zero (Nat.le_zero.mp h)
    simp [htext, scanLoop]
  | succ n ih =>
    intro text h
    rw [scanLoop]
    by_cases he : text.isEmpty
    · rw [if_pos he]
      have htext : text = [] := by simpa [List.isEmpty_iff] using he
      simp [htext]
    · rw [if_neg he]
      have hne : text ≠ [] := by simpa [List.isEmpty_iff] using he
      by_cases hb : (text.take Config.COMPATIBILITY_CHECK_SIZE).any (fun c => !compat c) = true
      · rw [if_pos hb]
        rcases List.any_eq_true.mp hb with ⟨x, hx, hpx⟩
        exact (List.any_eq_true.mpr ⟨x, List.mem_of_mem_take hx, hpx⟩).symm
      · rw [if_neg hb]
        have hb2 : (text.take Config.COMPATIBILITY_CHECK_SIZE).any (fun c => !compat c) = false := by
          simpa using hb
        have hlen : (text.drop Config.COMPATIBILITY_CHECK_SIZE).length ≤ n := by
          have hK : Config.COMPATIBILITY_CHECK_SIZE = 1024 := rfl
          have hpos : 0 < text.length := List.length_pos.mpr hne
          simp only [List.length_drop, hK]
          omega
        rw [ih _ hlen]
        have hsplit : text.any (fun c => !compat c) =
            ((text.take Config.COMPATIBILITY_CHECK_SIZE).any (fun c => !compat c) ||
             (text.drop Config.COMPATIBILITY_CHECK_SIZE).any (fun c => !compat c)) := by
          rw [← List.any_append, List.take_append_drop]
        rw [hsplit, hb2, Bool.false_or]

/-! ### Converter lemmas -/

theorem numChunks_mul_ge (text : List Nat) :
    text.length ≤ numChunks text * Config.CHUNK_SIZE := by
  simp only [numChunks, Config.CHUNK_SIZE]
  omega

theorem take_numChunks_eq (text : List Nat) :
    text.take (numChunks text * Config.CHUNK_SIZE) = text :=
  List.take_of_length_le (numChunks_mul_ge text)

theorem convGo_untouched (op : Nat → Fs → Fs) (tol : Nat → Bool) (failAt : Option Nat)
    (q : FPath) (hop : ∀ j s, fsGet (op j s) q = fsGet s q) :
    ∀ (rem i : Nat) (s : Fs), fsGet (convGo op tol failAt rem i s).finalFs q = fsGet s q := by
  intro rem
  induction rem with
  | zero => intro i s; rfl
  | succ n ih =>
    intro i s
    rw [convGo]
    by_cases hf : failAt = some i
    · rw [if_pos hf]
      by_cases ht : tol i
      · rw [if_pos ht]; exact ih (i + 1) s
      · rw [if_neg ht]
    · rw [if_neg hf]
      dsimp only
      rw [ih (i + 1) (op i s), hop i s]

theorem convOp_untouched (output temp : FPath) (text : List Nat) (encChar : Nat → Bytes)
    (nc : Nat) (q : FPath) (hq1 : q ≠ temp) (hq2 : q ≠ output)
    (hq3 : q ≠ backupName output) :
    ∀ (j : Nat) (s : Fs), fsGet (convOp output temp text encChar nc j s) q = fsGet s q := by
  intro j s
  unfold convOp
  dsimp only
  repeat' split
  all_goals
    first
      | rfl
      | exact fsGet_fsSet_ne _ _ _ _ hq1
      | exact fsGet_fsRemove_ne _ _ _ hq3
      | exact fsGet_fsMove_ne _ _ _ _ hq2 hq3
      | exact fsGet_fsMove_ne _ _ _ _ hq1 hq2

theorem fsGet_cleanupTemp_ne (temp : FPath) (s : Fs) (q : FPath) (hq : q ≠ temp) :
    fsGet (cleanupTemp temp s) q = fsGet s q := by
  unfold cleanupTemp
  split
  · exact fsGet_fsRemove_ne _ _ _ hq
  · rfl

theorem fsGet_cleanupTemp_self (temp : FPath) (s : Fs) :
    fsGet (cleanupTemp temp s) temp = none := by
  unfold cleanupTemp
  split
  · exact fsGet_fsRemove_self _ _
  · rename_i h
    have h2 : ¬ (fsGet s temp).isSome = true := h
    exact Option.not_isSome_iff_eq_none.mp h2

theorem convert_file_stream_untouched (fs0 : Fs) (output temp : FPath) (text : List Nat)
    (encChar : Nat → Bytes) (failAt : Option Nat) (q : FPath)
    (hq1 : q ≠ temp) (hq2 : q ≠ output) (hq3 : q ≠ backupName output) :
    fsGet (convert_file_stream fs0 output temp text encChar failAt).finalFs q = fsGet fs0 q := by
  unfold convert_file_stream
  dsimp only
  have hgo := convGo_untouched (convOp output temp text encChar (numChunks text))
    (fun i => i = numChunks text + 1) failAt q
    (convOp_untouched output temp text encChar (numChunks text) q hq1 hq2 hq3)
    (numChunks text + 4) 0 fs0
  split
  · exact hgo
  · rw [fsGet_cleanupTemp_ne _ _ _ hq1]; exact hgo

/-- Every state the step executor visits satisfies an invariant family `P`
preserved by the executed steps; a successful complete run ends in
`P (i + rem)`. -/
theorem convGo_inv (op : Nat → Fs → Fs) (tol : Nat → Bool) (failAt : Option Nat)
    (N : Nat) (P : Nat → Fs → Prop)
    (hop : ∀ j s, j < N → P j s → P (j + 1) (op j s))
    (htol : ∀ j s, tol j = true → P j s → P (j + 1) s) :
    ∀ (rem i : Nat) (s : Fs), i + rem ≤ N → P i s →
      (∀ t ∈ (convGo op tol failAt rem i s).trace, ∃ j, P j t) ∧
      (∃ j, P j (convGo op tol failAt rem i s).finalFs) ∧
      ((convGo op tol failAt rem i s).ok = true →
        P (i + rem) (convGo op tol failAt rem i s).finalFs) := by
  intro rem
  induction rem with
  | zero =>
    intro i s hle hP
    exact ⟨by simp [convGo], ⟨i, hP⟩, fun _ => by simpa using hP⟩
  | succ n ih =>
    intro i s hle hP
    by_cases hf : failAt = some i
    · by_cases ht : tol i = true
      · have hrec := ih (i + 1) s (by omega) (htol i s ht hP)
        rw [convGo, if_pos hf, if_pos ht]
        dsimp only
        refine ⟨?_, hrec.2.1, ?_⟩
        · intro t htr
          rcases List.mem_cons.mp htr with h1 | h2
          · exact ⟨i, h1 ▸ hP⟩
          · exact hrec.1 t h2
        · intro hok
          have hfin := hrec.2.2 hok
          have he : i + 1 + n = i + (n + 1) := by omega
          rw [he] at hfin; exact hfin
      · rw [convGo, if_pos hf, if_neg ht]
        refine ⟨?_, ⟨i, hP⟩, ?_⟩
        · intro t htr
          simp only [List.mem_singleton] at htr
          exact ⟨i, htr ▸ hP⟩
        · intro hok
          simp at hok
    · have hP2 := hop i s (by omega) hP
      have hrec := ih (i + 1) (op i s) (by omega) hP2
      rw [convGo, if_neg hf]
      dsimp only
      refine ⟨?_, hrec.2.1, ?_⟩
      · intro t htr
        rcases List.mem_cons.mp htr with h1 | h2
        · exact ⟨i + 1, h1 ▸ hP2⟩
        · exact hrec.1 t h2
      · intro hok
        have hfin := hrec.2.2 hok
        have he : i + 1 + n = i + (n + 1) := by omega
        rw [he] at hfin; exact hfin

/-- The state invariant carried across the converter's steps: the
destination only ever holds its original content, nothing, or the complete
re-encoded text; once the copy loop has started the temp file holds exactly
the re-encoding of the characters written so far; after the final rename
the destination holds the complete output and the temp name is free. -/
def ConvInv (fs0 : Fs) (output temp : FPath) (text : List Nat)
    (encChar : Nat → Bytes) (nc : Nat) (i : Nat) (s : Fs) : Prop :=
  (fsGet s output = fsGet fs0 output ∨ fsGet s output = none ∨
    fsGet s output = some (encodeAll encChar text)) ∧
  (1 ≤ i → i ≤ nc + 3 →
    fsGet s temp = some (encodeAll encChar (text.take (min (i - 1) nc * Config.CHUNK_SIZE)))) ∧
  (nc + 4 ≤ i → fsGet s output = some (encodeAll encChar text) ∧ fsGet s temp = none)

theorem convOp_preserves_inv (fs0 : Fs) (output temp : FPath) (text : List Nat)
    (encChar : Nat → Bytes) (htempout : temp ≠ output)
    (htempbk : temp ≠ backupName output) :
    ∀ j s, j < numChunks text + 4 →
      ConvInv fs0 output temp text encChar (numChunks text) j s →
      ConvInv fs0 output temp text encChar (numChunks text) (j + 1)
        (convOp output temp text encChar (numChunks text) j s) := by
  intro j s hj hP
  obtain ⟨hout, htemp, hdone⟩ := hP
  have houtemp : output ≠ temp := Ne.symm htempout
  have hbkout : backupName output ≠ output := by
    intro h
    have := congrArg List.length h
    simp only [backupName, List.length_append] at this
    have : 0 < (pstr ".backup").length := by decide
    omega
  have houtbk : output ≠ backupName output := Ne.symm hbkout
  set nc := numChunks text with hnc
  unfold convOp
  by_cases h0 : j = 0
  · rw [if_pos h0]
    subst h0
    refine ⟨?_, ?_, ?_⟩
    · rw [fsGet_fsSet_ne _ _ _ _ houtemp]; exact hout
    · intro _ _
      rw [fsGet_fsSet_self]
      simp [encodeAll]
    · intro habs; omega
  · rw [if_neg h0]
    by_cases h1 : j ≤ nc
    · rw [if_pos h1]
      refine ⟨?_, ?_, ?_⟩
      · rw [fsGet_fsSet_ne _ _ _ _ houtemp]; exact hout
      · intro _ _
        rw [fsGet_fsSet_self]
        have hm : min (j + 1 - 1) nc = j := by
          rw [Nat.add_sub_cancel]; exact Nat.min_eq_left h1
        rw [hm]
      · intro habs; omega
    · rw [if_neg h1]
      by_cases h2 : j = nc + 1
      · rw [if_pos h2]
        subst h2
        have hsame : min (nc + 1 + 1 - 1) nc = min (nc + 1 - 1) nc := by
          have e1 : nc + 1 + 1 - 1 = nc + 1 := rfl
          have e2 : nc + 1 - 1 = nc := rfl
          rw [e1, e2, Nat.min_self, Nat.min_eq_right (Nat.le_succ nc)]
        split
        · refine ⟨?_, ?_, ?_⟩
          · rw [fsGet_fsRemove_ne _ _ _ houtbk]; exact hout
          · intro _ _
            rw [fsGet_fsRemove_ne _ _ _ htempbk, hsame]
            exact htemp (by omega) (by omega)
          · intro habs; omega
        · refine ⟨hout, ?_, ?_⟩
          · intro _ _
            rw [hsame]; exact htemp (by omega) (by omega)
          · intro habs; omega
      · rw [if_neg h2]
        by_cases h3 : j = nc + 2
        · rw [if_pos h3]
          subst h3
          have hsame : min (nc + 2 + 1 - 1) nc = min (nc + 2 - 1) nc := by
            have e1 : nc + 2 + 1 - 1 = nc + 2 := rfl
            have e2 : nc + 2 - 1 = nc + 1 := rfl
            rw [e1, e2, Nat.min_eq_right (by omega), Nat.min_eq_right (Nat.le_succ nc)]
          split
          · refine ⟨?_, ?_, ?_⟩
            · right; left; exact fsGet_fsMove_src _ _ _
            · intro _ _
              rw [fsGet_fsMove_ne _ _ _ _ htempout htempbk, hsame]
              exact htemp (by omega) (by omega)
            · intro habs; omega
          · refine ⟨hout, ?_, ?_⟩
            · intro _ _
              rw [hsame]; exact htemp (by omega) (by omega)
            · intro habs; omega
        · have h4 : j = nc + 3 := by omega
          rw [if_neg h3]
          subst h4
          have htv := htemp (by omega) (by omega)
          have hminv : min (nc + 3 - 1) nc = nc := by
            have e1 : nc + 3 - 1 = nc + 2 := rfl
            rw [e1, Nat.min_eq_right (by omega)]
          rw [hminv, take_numChunks_eq] at htv
          refine ⟨?_, ?_, ?_⟩
          · right; right
            rw [fsGet_fsMove_dst _ _ _ houtemp]
            exact htv
          · intro _ habs; omega
          · intro _
            constructor
            · rw [fsGet_fsMove_dst _ _ _ houtemp]; exact htv
            · rw [fsGet_fsMove_src]

theorem convTol_preserves_inv (fs0 : Fs) (output temp : FPath) (text : List Nat)
    (encChar : Nat → Bytes) :
    ∀ j s, decide (j = numChunks text + 1) = true →
      ConvInv fs0 output temp text encChar (numChunks text) j s →
      ConvInv fs0 output temp text encChar (numChunks text) (j + 1) s := by
  intro j s hj hP
  have hje : j = numChunks text + 1 := of_decide_eq_true hj
  obtain ⟨hout, htemp, hdone⟩ := hP
  subst hje
  set nc := numChunks text with hnc
  refine ⟨hout, ?_, ?_⟩
  · intro _ _
    have hsame : min (nc + 1 + 1 - 1) nc = min (nc + 1 - 1) nc := by
      have e1 : nc + 1 + 1 - 1 = nc + 1 := rfl
      have e2 : nc + 1 - 1 = nc := rfl
      rw [e1, e2, Nat.min_self, Nat.min_eq_right (Nat.le_succ nc)]
    rw [hsame]
    exact htemp (by omega) (by omega)
  · intro habs; omega

/-- Full behaviour of the modelled `convert_file_stream`: the destination
path never shows anything but its prior content, absence, or the complete
converted output in any intermediate state; the temp file is gone at
return; and a successful return means the destination holds the complete
converted output. -/
theorem convert_file_stream_spec (fs0 : Fs) (output temp : FPath) (text : List Nat)
    (encChar : Nat → Bytes) (failAt : Option Nat)
    (htempout : temp ≠ output) (htempbk : temp ≠ backupName output)
    (hfresh : fsGet fs0 temp = none) :
    (∀ t ∈ (convert_file_stream fs0 output temp text encChar failAt).trace,
      fsGet t output = fsGet fs0 output ∨ fsGet t output = none ∨
      fsGet t output = some (encodeAll encChar text)) ∧
    fsGet (convert_file_stream fs0 output temp text encChar failAt).finalFs temp = none ∧
    ((convert_file_stream fs0 output temp text encChar failAt).ok = true →
      fsGet (convert_file_stream fs0 output temp text encChar failAt).finalFs output =
        some (encodeAll encChar text)) := by
  set nc := numChunks text with hnc
  have hP0 : ConvInv fs0 output temp text encChar nc 0 fs0 :=
    ⟨Or.inl rfl, fun h1 _ => absurd h1 (by omega), fun h => absurd h (by omega)⟩
  have hinv := convGo_inv (convOp output temp text encChar nc)
    (fun i => decide (i = nc + 1)) failAt (nc + 4)
    (ConvInv fs0 output temp text encChar nc)
    (convOp_preserves_inv fs0 output temp text encChar htempout htempbk)
    (convTol_preserves_inv fs0 output temp text encChar)
    (nc + 4) 0 fs0 (by omega) hP0
  have hfail0 : failAt = some 0 →
      (convGo (convOp output temp text encChar nc) (fun i => decide (i = nc + 1))
        failAt (nc + 4) 0 fs0) = ⟨[fs0], fs0, false⟩ := by
    intro hfa
    have hrem : nc + 4 = (nc + 3) + 1 := rfl
    rw [hrem, convGo, if_pos hfa, if_neg (by simp only [decide_eq_true_eq]; omega)]
  unfold convert_file_stream
  dsimp only
  rw [← hnc]
  refine ⟨?_, ?_, ?_⟩
  · intro t ht
    rcases List.mem_cons.mp ht with h1 | h2
    · exact h1 ▸ Or.inl rfl
    · rcases List.mem_append.mp h2 with h3 | h4
      · obtain ⟨j, hPj⟩ := hinv.1 t h3
        exact hPj.1
      · simp only [List.mem_singleton] at h4
        subst h4
        obtain ⟨j, hPj⟩ := hinv.2.1
        split
        · exact hPj.1
        · rw [fsGet_cleanupTemp_ne _ _ _ (Ne.symm htempout)]
          exact hPj.1
  · split
    · rename_i hfa
      rw [hfail0 hfa]
      exact hfresh
    · exact fsGet_cleanupTemp_self _ _
  · intro hok
    have hfin := hinv.2.2 hok
    have hdone := hfin.2.2 (by omega)
    split
    · rename_i hfa
      rw [hfail0 hfa] at hok
      simp at hok
    · rw [fsGet_cleanupTemp_ne _ _ _ (Ne.symm htempout)]
      exact hdone.1

/-- Whatever `convert_to_sjis` does, a path different from the temp file,
the output file and the backup file keeps its content. -/
theorem convert_to_sjis_preserves (ctx : ConvCtx) (filepath : FPath) (q : FPath)
    (hq1 : q ≠ ctx.tempPath)
    (hq2 : ∀ flag, q ≠ (generate_output_filename (ctx.absOf filepath) flag ctx.isDir ctx.cwd).1)
    (hq3 : ∀ flag, q ≠ backupName (generate_output_filename (ctx.absOf filepath) flag ctx.isDir ctx.cwd).1) :
    fsGet (convert_to_sjis ctx filepath).2 q = fsGet ctx.fs q := by
  unfold convert_to_sjis
  dsimp only
  repeat' split
  all_goals
    first
      | rfl
      | exact convert_file_stream_untouched _ _ _ _ _ _ q hq1 (hq2 _) (hq3 _)

/-! ### Detector reduction lemmas -/

/-- The bounded leading sample `detect_encoding` reads (lines 81-83). -/
def sampleOf (content : Bytes) : Bytes :=
  content.take (min content.length Config.DETECTION_SAMPLE_SIZE)

theorem sampleOf_ne_nil (content : Bytes) (h : content ≠ []) :
    ¬ (sampleOf content).isEmpty = true := by
  unfold sampleOf
  rw [List.isEmpty_iff]
  intro habs
  have hlen := congrArg List.length habs
  have hpos : 0 < content.length := List.length_pos.mpr h
  have hS : (0 : Nat) < Config.DETECTION_SAMPLE_SIZE := by decide
  simp only [List.length_take, List.length_nil] at hlen
  omega

theorem take_isLeading (n : Nat) (l : Bytes) : l.take n <+: l :=
  List.take_prefix n l

theorem isPrefixOf_eq_true_iff (l m : Bytes) : l.isPrefixOf m = true ↔ l <+: m :=
  List.isPrefixOf_iff_prefix

theorem sampleOf_leading (content : Bytes) : sampleOf content <+: content :=
  take_isLeading _ _

theorem sampleOf_def (content : Bytes) :
    List.take (min content.length Config.DETECTION_SAMPLE_SIZE) content = sampleOf content := rfl

/-- After the structural checks pass, `detect_encoding` is exactly the
statistical branch of lines 103-123. -/
theorem detect_encoding_statistical (content : Bytes)
    (chardetF : Bytes → Option String × Rat) (utf8Valid : Bytes → Bool)
    (name : String) (confidence : Rat)
    (hsize : content.length ≤ Config.MAX_FILE_SIZE)
    (hne : content ≠ [])
    (hb1 : ¬ [0xff, 0xfe] <+: content)
    (hb2 : ¬ [0xfe, 0xff] <+: content)
    (hb3 : ¬ [0xef, 0xbb, 0xbf] <+: content)
    (hbin : is_binary_file (some content) = false)
    (hchar : chardetF (sampleOf content) = (some name, confidence)) :
    detect_encoding none content chardetF utf8Valid =
      (if (normalize_encoding_name name = Config.ENCODING_UTF8 ∨
            normalize_encoding_name name = "ASCII") ∧ utf8Valid (sampleOf content) = true
       then (some Config.ENCODING_UTF8, none)
       else if confidence > mkRat 8 10 then
         if normalize_encoding_name name = Config.ENCODING_SHIFT_JIS ∧
             utf8Valid (sampleOf content) = true
         then (some Config.ENCODING_UTF8, none)
         else (some (normalize_encoding_name name), none)
       else (none, some (DetectErr.lowConfidence name confidence))) := by
  have hpre1 : ¬ [0xff, 0xfe].isPrefixOf (sampleOf content) = true := by
    rw [isPrefixOf_eq_true_iff]
    exact fun h => hb1 (h.trans (sampleOf_leading content))
  have hpre2 : ¬ [0xfe, 0xff].isPrefixOf (sampleOf content) = true := by
    rw [isPrefixOf_eq_true_iff]
    exact fun h => hb2 (h.trans (sampleOf_leading content))
  have hpre3 : ¬ [0xef, 0xbb, 0xbf].isPrefixOf (sampleOf content) = true := by
    rw [isPrefixOf_eq_true_iff]
    exact fun h => hb3 (h.trans (sampleOf_leading content))
  unfold detect_encoding
  rw [if_neg (by omega : ¬ content.length > Config.MAX_FILE_SIZE),
    if_neg (by
      intro habs
      exact hne (List.eq_nil_of_length_eq_zero habs))]
  dsimp only
  rw [sampleOf_def]
  rw [if_neg (sampleOf_ne_nil content hne), if_neg hpre1, if_neg hpre2, if_neg hpre3,
    if_neg (by rw [hbin]; simp), hchar]

/-- When the sample is non-BOM, non-binary: the classifier path of
lines 88-101 rejects a null-byte-bearing file. -/
theorem detect_encoding_binary (content : Bytes)
    (chardetF : Bytes → Option String × Rat) (utf8Valid : Bytes → Bool)
    (hsize : content.length ≤ Config.MAX_FILE_SIZE)
    (hne : content ≠ [])
    (hb1 : ¬ [0xff, 0xfe] <+: content)
    (hb2 : ¬ [0xfe, 0xff] <+: content)
    (hb3 : ¬ [0xef, 0xbb, 0xbf] <+: content)
    (hbin : is_binary_file (some content) = true) :
    detect_encoding none content chardetF utf8Valid = (none, some DetectErr.binaryFile) := by
  have hpre1 : ¬ [0xff, 0xfe].isPrefixOf (sampleOf content) = true := by
    rw [isPrefixOf_eq_true_iff]
    exact fun h => hb1 (h.trans (sampleOf_leading content))
  have hpre2 : ¬ [0xfe, 0xff].isPrefixOf (sampleOf content) = true := by
    rw [isPrefixOf_eq_true_iff]
    exact fun h => hb2 (h.trans (sampleOf_leading content))
  have hpre3 : ¬ [0xef, 0xbb, 0xbf].isPrefixOf (sampleOf content) = true := by
    rw [isPrefixOf_eq_true_iff]
    exact fun h => hb3 (h.trans (sampleOf_leading content))
  unfold detect_encoding
  rw [if_neg (by omega : ¬ content.length > Config.MAX_FILE_SIZE),
    if_neg (by
      intro habs
      exact hne (List.eq_nil_of_length_eq_zero habs))]
  dsimp only
  rw [sampleOf_def]
  rw [if_neg (sampleOf_ne_nil content hne), if_neg hpre1, if_neg hpre2, if_neg hpre3,
    if_pos hbin]

/-! ### Concrete oracle instantiations used by the closed corollaries -/

def chardetUtf8 : Bytes → Option String × Rat := fun _ => (some "utf-8", mkRat 9 10)

def utf8Always : Bytes → Bool := fun _ => true

def encCid : Nat → Option Bytes := fun c => some [c]

def decBid : Bytes → Option (List Nat) := fun bs => some bs

def decodeRid : String → Bytes → List Nat := fun _ bs => bs

def encCharId : Nat → Bytes := fun c => [c]

def ctxBase : ConvCtx where
  fs := fun _ => none
  cwd := pstr "/w"
  absOf := fun p => p
  isDir := fun d => d = pstr "/d"
  chardetF := chardetUtf8
  utf8Valid := utf8Always
  decodeR := decodeRid
  encChar := encCharId
  encC := encCid
  decB := decBid
  confirmAns := true
  tempPath := pstr "/d/t"
  detectExn := none
  scanExn := false
  nameExn := false
  convFailAt := none

/-- A plain one-byte UTF-8 file at /d/a.txt. -/
def ctxA : ConvCtx :=
  { ctxBase with fs := fun q => if q = pstr "/d/a.txt" then some [65] else none }

/-- Like ctxA but the output path already exists and the user answers no. -/
def ctxB : ConvCtx :=
  { ctxBase with
    fs := fun q =>
      if q = pstr "/d/a.txt" then some [65]
      else if q = pstr "/d/a_sjis.txt" then some [1] else none
    confirmAns := false }

/-- A zero-byte file at /d/e.txt. -/
def ctxEmpty : ConvCtx :=
  { ctxBase with fs := fun q => if q = pstr "/d/e.txt" then some [] else none }

/-- A UTF-8-BOM file whose fourth byte is a null. -/
def ctxBom : ConvCtx :=
  { ctxBase with
    fs := fun q => if q = pstr "/d/b.csv" then some [0xef, 0xbb, 0xbf, 0] else none }

/-- A BOM-less file containing a null byte. -/
def ctxNull : ConvCtx :=
  { ctxBase with
    fs := fun q => if q = pstr "/d/n.bin" then some [0, 65] else none }

/-! ### The claims -/

/-- C7: `is_binary_file` answers true exactly when the at-most-1024-byte
leading sample contains a null byte and does not begin with a UTF-16 byte
order mark (0xFFFE or 0xFEFF); an empty sample yields false; a failed read
yields true. -/
theorem C7_is_binary_file_spec :
    (∀ content : Bytes, is_binary_file (some content) = true ↔
      (0 ∈ content.take 1024 ∧
        ¬ [0xff, 0xfe] <+: content.take 1024 ∧
        ¬ [0xfe, 0xff] <+: content.take 1024)) ∧
    (∀ content : Bytes, content.take 1024 = [] → is_binary_file (some content) = false) ∧
    is_binary_file none = true := by
  refine ⟨?_, ?_, rfl⟩
  · intro content
    unfold is_binary_file
    dsimp only
    by_cases h1 : (content.take 1024).isEmpty
    · rw [if_pos h1]
      have he : content.take 1024 = [] := by simpa [List.isEmpty_iff] using h1
      simp [he]
    · rw [if_neg h1]
      by_cases h2 : [0xff, 0xfe].isPrefixOf (content.take 1024) = true
      · rw [if_pos h2]
        rw [isPrefixOf_eq_true_iff] at h2
        simp [h2]
      · rw [if_neg h2]
        rw [isPrefixOf_eq_true_iff] at h2
        by_cases h3 : [0xfe, 0xff].isPrefixOf (content.take 1024) = true
        · rw [if_pos h3]
          rw [isPrefixOf_eq_true_iff] at h3
          simp [h3]
        · rw [if_neg h3]
          rw [isPrefixOf_eq_true_iff] at h3
          simp [List.contains, List.elem_iff, h2, h3]
  · intro content he
    unfold is_binary_file
    dsimp only
    rw [if_pos (by simp [he])]

/-- C7 witness: a file whose first byte is null is classified binary. -/
theorem C7_witness : is_binary_file (some [0]) = true :=
  (C7_is_binary_file_spec.1 [0]).mpr (by decide)

/-- C10: a read failure makes `has_bom_utf8` report no BOM (false) while the
same failure makes `is_binary_file` report binary (true) — opposite fail
directions. -/
theorem C10_read_failure_directions :
    has_bom_utf8 none = false ∧ is_binary_file none = true :=
  ⟨rfl, rfl⟩

/-- C4: a character the per-character check accepts round-trips through the
target codec back to itself; the streaming scanner reports no incompatible
characters exactly when every character of the decoded text passes the
check; a failed read reports incompatible; and any text containing a
failing character is reported incompatible whatever follows it (the scan
stops at the first failing character). -/
theorem C4_compatibility_scanner (encC : Nat → Option Bytes)
    (decB : Bytes → Option (List Nat)) :
    (∀ c, check_char_sjis_compatibility encC decB c = true ↔
      ∃ bs, encC c = some bs ∧ decB bs = some [c]) ∧
    (∀ text, check_sjis_compatibility_stream encC decB (some text) = false ↔
      ∀ c ∈ text, check_char_sjis_compatibility encC decB c = true) ∧
    check_sjis_compatibility_stream encC decB none = true ∧
    (∀ pre c post, check_char_sjis_compatibility encC decB c = false →
      check_sjis_compatibility_stream encC decB (some (pre ++ c :: post)) = true) := by
  refine ⟨?_, ?_, rfl, ?_⟩
  · intro c
    unfold check_char_sjis_compatibility
    cases hc : encC c with
    | none => simp
    | some bs =>
      cases hd : decB bs with
      | none => simp [hd]
      | some cs => simp [hd, beq_iff_eq]
  · intro text
    unfold check_sjis_compatibility_stream
    dsimp only
    rw [scanLoop_eq_any _ _ _ le_rfl]
    rw [List.any_eq_false]
    constructor
    · intro h c hc
      have := h c hc
      simpa using this
    · intro h c hc
      simp [h c hc]
  · intro pre c post hc
    unfold check_sjis_compatibility_stream
    dsimp only
    rw [scanLoop_eq_any _ _ _ le_rfl]
    exact List.any_eq_true.mpr ⟨c, by simp, by simp [hc]⟩

/-- C4 witness: with an identity codec a two-character text scans as fully
compatible. -/
theorem C4_witness : check_sjis_compatibility_stream encCid decBid (some [65, 66]) = false :=
  ((C4_compatibility_scanner encCid decBid).2.1 [65, 66]).mpr (by decide)

/-- C9 counterexample: when the input's directory no longer exists,
`generate_output_filename` places the output under the current working
directory, not the input's directory — refuting the claim that the output
is always placed in the input's directory. -/
theorem C9_counterexample :
    (generate_output_filename (pstr "/gone/a.txt") false (fun _ => false)
      (pstr "/elsewhere")).1 = pstr "/elsewhere/a_sjis.txt" ∧
    dirname (generate_output_filename (pstr "/gone/a.txt") false (fun _ => false)
      (pstr "/elsewhere")).1 ≠ dirname (pstr "/gone/a.txt") := by
  constructor
  · decide
  · decide

/-- C9 (amended): the output file name is the input's stem, the `_sjis` or
`_sjisx` suffix, and the original extension; the output path joins that name
to the input's directory when that directory still exists and to the
current working directory otherwise; and the output path never equals the
input path. -/
theorem C9_output_naming (a : FPath) (flag : Bool) (dirF : FPath → Bool) (cwd : FPath) :
    (generate_output_filename a flag dirF cwd).2 =
      (splitext (basename a)).1 ++
        (if flag then Config.SJISX_SUFFIX else Config.SJIS_SUFFIX) ++
        (splitext (basename a)).2 ∧
    (generate_output_filename a flag dirF cwd).1 =
      pathJoin (if dirF (dirname a) then dirname a else cwd)
        (generate_output_filename a flag dirF cwd).2 ∧
    (generate_output_filename a flag dirF cwd).1 ≠ a := by
  refine ⟨?_, ?_, generate_output_ne a flag dirF cwd⟩
  · rw [generate_output_filename_eq]
  · rw [generate_output_filename_eq]

/-- C5 counterexample: for a zero-length file `detect_encoding` populates
the error side of the pair (with the empty-file reason) and returns no
encoding, refuting the claim that the zero-length case returns no error. -/
theorem C5_counterexample :
    (detect_encoding none [] chardetUtf8 utf8Always).1 = none ∧
    (detect_encoding none [] chardetUtf8 utf8Always).2 = some DetectErr.emptyFile := by
  constructor
  · rfl
  · rfl

/-- The orchestrator's empty-file branch (lines 342-348). -/
theorem convert_to_sjis_empty_file (ctx : ConvCtx) (p : FPath)
    (hexn : ctx.detectExn = none)
    (hget : fsGet ctx.fs (ctx.absOf p) = some []) :
    convert_to_sjis ctx p =
      (⟨true, Msg.emptyFileSkip, "N/A", false, false, true⟩, ctx.fs) := by
  unfold convert_to_sjis
  have hex : fsExists ctx.fs (ctx.absOf p) = true := by simp [fsExists, hget]
  rw [if_neg (by simp [hex]), if_neg (by simp [hex]), hget, hexn]
  have hdet : ∀ F V, detect_encoding none [] F V = (none, some DetectErr.emptyFile) := by
    intro F V; rfl
  simp [Option.getD, hdet]

set_option maxHeartbeats 2000000 in
/-- C5 (amended): `detect_encoding` always populates exactly one of the
pair — including the zero-length case, which populates the error side with
the empty-file reason; the orchestrator turns that reason into a skipped
success whose `original_encoding` is the sentinel "N/A". -/
theorem C5_exactly_one_populated (exn : Option DetectExn) (content : Bytes)
    (chardetF : Bytes → Option String × Rat) (utf8Valid : Bytes → Bool) :
    ((detect_encoding exn content chardetF utf8Valid).1.isSome ↔
      (detect_encoding exn content chardetF utf8Valid).2 = none) ∧
    (exn = none → content = [] →
      detect_encoding exn content chardetF utf8Valid = (none, some DetectErr.emptyFile)) ∧
    (∀ ctx : ConvCtx, ∀ p : FPath, ctx.detectExn = none →
      fsGet ctx.fs (ctx.absOf p) = some [] →
      (convert_to_sjis ctx p).1 = ⟨true, Msg.emptyFileSkip, "N/A", false, false, true⟩) := by
  refine ⟨?_, ?_, ?_⟩
  · unfold detect_encoding
    cases exn with
    | some e => cases e <;> simp
    | none =>
      dsimp only
      generalize chardetF (List.take (min content.length Config.DETECTION_SAMPLE_SIZE)
        content) = pr
      obtain ⟨nameOpt, conf⟩ := pr
      cases nameOpt <;> dsimp only <;> split_ifs <;> simp
  · intro hexn hcontent
    subst hexn; subst hcontent
    rfl
  · intro ctx p hexn hget
    rw [convert_to_sjis_empty_file ctx p hexn hget]

/-- C5 witness: the empty file at /d/e.txt is reported as a skipped success
with the "N/A" sentinel. -/
theorem C5_witness :
    (convert_to_sjis ctxEmpty (pstr "/d/e.txt")).1 =
      ⟨true, Msg.emptyFileSkip, "N/A", false, false, true⟩ :=
  (C5_exactly_one_populated none [] chardetUtf8 utf8Always).2.2 ctxEmpty
    (pstr "/d/e.txt") rfl (by decide)

/-- C6: the post-detection decision order — the UTF-8/ASCII strict-decode
override commits to UTF-8 regardless of confidence; otherwise the 0.8
confidence gate applies, below which the error embeds the raw candidate
name and the numeric confidence; and a gated Shift_JIS verdict whose sample
also strictly decodes as UTF-8 is overridden to UTF-8. -/
theorem C6_detector_decision_order (content : Bytes)
    (chardetF : Bytes → Option String × Rat) (utf8Valid : Bytes → Bool)
    (name : String) (confidence : Rat)
    (hsize : content.length ≤ Config.MAX_FILE_SIZE)
    (hne : content ≠ [])
    (hb1 : ¬ [0xff, 0xfe] <+: content)
    (hb2 : ¬ [0xfe, 0xff] <+: content)
    (hb3 : ¬ [0xef, 0xbb, 0xbf] <+: content)
    (hbin : is_binary_file (some content) = false)
    (hchar : chardetF (sampleOf content) = (some name, confidence)) :
    ((normalize_encoding_name name = Config.ENCODING_UTF8 ∨
        normalize_encoding_name name = "ASCII") → utf8Valid (sampleOf content) = true →
      detect_encoding none content chardetF utf8Valid = (some Config.ENCODING_UTF8, none)) ∧
    (¬ ((normalize_encoding_name name = Config.ENCODING_UTF8 ∨
          normalize_encoding_name name = "ASCII") ∧ utf8Valid (sampleOf content) = true) →
      confidence > mkRat 8 10 →
      normalize_encoding_name name = Config.ENCODING_SHIFT_JIS →
      utf8Valid (sampleOf content) = true →
      detect_encoding none content chardetF utf8Valid = (some Config.ENCODING_UTF8, none)) ∧
    (¬ ((normalize_encoding_name name = Config.ENCODING_UTF8 ∨
          normalize_encoding_name name = "ASCII") ∧ utf8Valid (sampleOf content) = true) →
      confidence > mkRat 8 10 →
      ¬ (normalize_encoding_name name = Config.ENCODING_SHIFT_JIS ∧
          utf8Valid (sampleOf content) = true) →
      detect_encoding none content chardetF utf8Valid =
        (some (normalize_encoding_name name), none)) ∧
    (¬ ((normalize_encoding_name name = Config.ENCODING_UTF8 ∨
          normalize_encoding_name name = "ASCII") ∧ utf8Valid (sampleOf content) = true) →
      ¬ confidence > mkRat 8 10 →
      detect_encoding none content chardetF utf8Valid =
        (none, some (DetectErr.lowConfidence name confidence))) := by
  have hred := detect_encoding_statistical content chardetF utf8Valid name confidence
    hsize hne hb1 hb2 hb3 hbin hchar
  refine ⟨?_, ?_, ?_, ?_⟩
  · intro ha hv
    rw [hred, if_pos ⟨ha, hv⟩]
  · intro hna hconf hsj hv
    rw [hred, if_neg hna, if_pos hconf, if_pos ⟨hsj, hv⟩]
  · intro hna hconf hns
    rw [hred, if_neg hna, if_pos hconf, if_neg hns]
  · intro hna hnconf
    rw [hred, if_neg hna, if_neg hnconf]

def chardetLow : Bytes → Option String × Rat := fun _ => (some "EUC-JP", mkRat 1 2)

/-- C6 witness: a 0.5-confidence EUC-JP candidate is rejected with a
low-confidence reason carrying the raw name and the confidence. -/
theorem C6_witness :
    detect_encoding none [65] chardetLow utf8Always =
      (none, some (DetectErr.lowConfidence "EUC-JP" (mkRat 1 2))) :=
  (C6_detector_decision_order [65] chardetLow utf8Always "EUC-JP" (mkRat 1 2)
    (by decide) (by decide) (by decide) (by decide) (by decide) (by decide) rfl).2.2.2
    (by decide) (by decide)

/-- The orchestrator's handling of a detector failure other than the
empty-file reason (lines 342-351): a failure result, file system untouched. -/
theorem convert_to_sjis_detect_fail (ctx : ConvCtx) (p : FPath) (content : Bytes)
    (e : DetectErr)
    (hget : fsGet ctx.fs (ctx.absOf p) = some content)
    (hdet : detect_encoding ctx.detectExn content ctx.chardetF ctx.utf8Valid =
      (none, some e))
    (hnem : e ≠ DetectErr.emptyFile) :
    convert_to_sjis ctx p =
      (⟨false, Msg.detectFail e, "", false, false, false⟩, ctx.fs) := by
  unfold convert_to_sjis
  have hex : fsExists ctx.fs (ctx.absOf p) = true := by simp [fsExists, hget]
  rw [if_neg (by simp [hex]), if_neg (by simp [hex]), hget]
  simp [Option.getD, hdet, hnem]

/-- C8 counterexample: the four-byte file EF BB BF 00 satisfies every
hypothesis of the claim (non-empty, within the size limit, a null byte in
its first 1024 bytes, no UTF-16 byte order mark) yet detection succeeds
with the UTF-8-BOM verdict instead of failing with a binary-file reason,
and the orchestrator converts it and creates an output file. -/
theorem C8_counterexample :
    ([0xef, 0xbb, 0xbf, 0] : Bytes) ≠ [] ∧
    ([0xef, 0xbb, 0xbf, 0] : Bytes).length ≤ Config.MAX_FILE_SIZE ∧
    (0 : Nat) ∈ ([0xef, 0xbb, 0xbf, 0] : Bytes).take 1024 ∧
    ¬ [0xff, 0xfe] <+: ([0xef, 0xbb, 0xbf, 0] : Bytes) ∧
    ¬ [0xfe, 0xff] <+: ([0xef, 0xbb, 0xbf, 0] : Bytes) ∧
    detect_encoding none [0xef, 0xbb, 0xbf, 0] chardetUtf8 utf8Always =
      (some Config.ENCODING_UTF8_SIG_BOM, none) ∧
    (convert_to_sjis ctxBom (pstr "/d/b.csv")).1.converted = true ∧
    fsGet (convert_to_sjis ctxBom (pstr "/d/b.csv")).2 (pstr "/d/b_sjis.csv") =
      some [0xef, 0xbb, 0xbf, 0] := by
  refine ⟨by decide, by decide, by decide, by decide, by decide, by decide, by decide,
    by decide⟩

/-- C8 (amended): for every non-empty file within the size limit whose
first 1024 bytes contain a null byte and which begins with neither a UTF-16
byte order mark nor the UTF-8 byte order mark, detection fails with the
binary-file reason and the orchestrator reports a failure without touching
the file system. -/
theorem C8_binary_rejected (ctx : ConvCtx) (p : FPath) (content : Bytes)
    (hget : fsGet ctx.fs (ctx.absOf p) = some content)
    (hexn : ctx.detectExn = none)
    (hne : content ≠ [])
    (hsize : content.length ≤ Config.MAX_FILE_SIZE)
    (hnull : 0 ∈ content.take 1024)
    (hb1 : ¬ [0xff, 0xfe] <+: content)
    (hb2 : ¬ [0xfe, 0xff] <+: content)
    (hb3 : ¬ [0xef, 0xbb, 0xbf] <+: content) :
    detect_encoding none content ctx.chardetF ctx.utf8Valid =
      (none, some DetectErr.binaryFile) ∧
    convert_to_sjis ctx p =
      (⟨false, Msg.detectFail DetectErr.binaryFile, "", false, false, false⟩, ctx.fs) := by
  have hbin : is_binary_file (some content) = true := by
    unfold is_binary_file
    dsimp only
    have hchunkne : ¬ (content.take 1024).isEmpty = true := by
      rw [List.isEmpty_iff]
      intro h
      rw [h] at hnull
      exact absurd hnull (List.not_mem_nil 0)
    have hp1 : ¬ [0xff, 0xfe].isPrefixOf (content.take 1024) = true := by
      rw [isPrefixOf_eq_true_iff]
      exact fun h => hb1 (h.trans (take_isLeading _ _))
    have hp2 : ¬ [0xfe, 0xff].isPrefixOf (content.take 1024) = true := by
      rw [isPrefixOf_eq_true_iff]
      exact fun h => hb2 (h.trans (take_isLeading _ _))
    rw [if_neg hchunkne, if_neg hp1, if_neg hp2]
    simp [List.contains, List.elem_iff, hnull]
  have hdet := detect_encoding_binary content ctx.chardetF ctx.utf8Valid hsize hne
    hb1 hb2 hb3 hbin
  refine ⟨hdet, ?_⟩
  exact convert_to_sjis_detect_fail ctx p content DetectErr.binaryFile hget
    (by rw [hexn]; exact hdet) (by decide)

/-- C8 witness: a BOM-less file whose first byte is null is rejected with
the binary-file reason and nothing is written. -/
theorem C8_witness :
    convert_to_sjis ctxNull (pstr "/d/n.bin") =
      (⟨false, Msg.detectFail DetectErr.binaryFile, "", false, false, false⟩,
        ctxNull.fs) :=
  (C8_binary_rejected ctxNull (pstr "/d/n.bin") [0, 65] (by decide) rfl (by decide)
    (by decide) (by decide) (by decide) (by decide) (by decide)).2

/-- C1 counterexample: when the output path exists and the user declines
the overwrite, the result is flagged skipped but has success = false,
refuting the claim that a declined overwrite is a skipped success. -/
theorem C1_counterexample :
    (convert_to_sjis ctxB (pstr "/d/a.txt")).1.message = Msg.cancelledNoOverwrite ∧
    (convert_to_sjis ctxB (pstr "/d/a.txt")).1.skipped = true ∧
    (convert_to_sjis ctxB (pstr "/d/a.txt")).1.success = false := by
  refine ⟨by decide, by decide, by decide⟩

set_option maxHeartbeats 1000000 in
/-- C1 (amended): every result is exactly one of converted success, skipped
success, or failure (`success = false`); the empty-file and
already-target-encoding outcomes are skipped successes, but the
declined-overwrite outcome is flagged skipped with `success = false`. -/
theorem C1_result_states (ctx : ConvCtx) (p : FPath) :
    (((convert_to_sjis ctx p).1.success = true ∧
        (convert_to_sjis ctx p).1.converted = true ∧
        (convert_to_sjis ctx p).1.skipped = false) ∨
      ((convert_to_sjis ctx p).1.success = true ∧
        (convert_to_sjis ctx p).1.skipped = true ∧
        (convert_to_sjis ctx p).1.converted = false) ∨
      (convert_to_sjis ctx p).1.success = false) ∧
    ((convert_to_sjis ctx p).1.message = Msg.emptyFileSkip →
      (convert_to_sjis ctx p).1.success = true ∧
        (convert_to_sjis ctx p).1.skipped = true) ∧
    ((convert_to_sjis ctx p).1.message = Msg.alreadySjisSkip →
      (convert_to_sjis ctx p).1.success = true ∧
        (convert_to_sjis ctx p).1.skipped = true) ∧
    ((convert_to_sjis ctx p).1.message = Msg.cancelledNoOverwrite →
      (convert_to_sjis ctx p).1.skipped = true ∧
        (convert_to_sjis ctx p).1.success = false) := by
  unfold convert_to_sjis
  dsimp only
  repeat' split
  all_goals simp

/-- C1 witness: the empty file is a skipped success. -/
theorem C1_witness :
    (convert_to_sjis ctxEmpty (pstr "/d/e.txt")).1.success = true ∧
    (convert_to_sjis ctxEmpty (pstr "/d/e.txt")).1.skipped = true :=
  (C1_result_states ctxEmpty (pstr "/d/e.txt")).2.1 (by decide)

/-- C2: whatever the outcome of a conversion attempt, the input file's
bytes are unchanged and the file is not deleted.  The hypothesis states
that `tempfile.mkstemp`'s chosen name is fresh (it creates a new file
exclusively, so its name cannot be an existing file's). -/
theorem C2_input_file_preserved (ctx : ConvCtx) (p : FPath)
    (hfresh : fsGet ctx.fs ctx.tempPath = none) :
    fsGet (convert_to_sjis ctx p).2 (ctx.absOf p) = fsGet ctx.fs (ctx.absOf p) := by
  by_cases hex : fsExists ctx.fs (ctx.absOf p) = true
  · have htemp : ctx.absOf p ≠ ctx.tempPath := by
      intro he
      rw [fsExists, he, hfresh] at hex
      simp at hex
    exact convert_to_sjis_preserves ctx p (ctx.absOf p) htemp
      (fun flag => Ne.symm (generate_output_ne (ctx.absOf p) flag ctx.isDir ctx.cwd))
      (fun flag => Ne.symm (generate_backup_ne (ctx.absOf p) flag ctx.isDir ctx.cwd))
  · unfold convert_to_sjis
    dsimp only
    split
    · rfl
    · split
      · rfl
      · rename_i h2
        exact absurd (by simpa using h2) hex

/-- C2 witness: the one-byte input file still holds its byte after a
successful conversion. -/
theorem C2_witness :
    fsGet (convert_to_sjis ctxA (pstr "/d/a.txt")).2 (pstr "/d/a.txt") =
      fsGet ctxA.fs (pstr "/d/a.txt") :=
  C2_input_file_preserved ctxA (pstr "/d/a.txt") (by decide)

/-- C3: in every run of `convert_file_stream` — success, failure, or an
injected exception at any step — every observable state shows the
destination path holding its original content, nothing, or the complete
re-encoded output (never a partial write: content only appears there via
the single rename of the fully-written temp file), the temp file no longer
exists when the call returns, and a successful return leaves the complete
output at the destination.  The hypotheses record `tempfile.mkstemp`'s
exclusive-creation guarantee: the temp name is fresh and distinct from the
destination and backup names. -/
theorem C3_atomic_promotion_and_cleanup (fs0 : Fs) (output temp : FPath)
    (text : List Nat) (encChar : Nat → Bytes) (failAt : Option Nat)
    (htempout : temp ≠ output) (htempbk : temp ≠ backupName output)
    (hfresh : fsGet fs0 temp = none) :
    (∀ t ∈ (convert_file_stream fs0 output temp text encChar failAt).trace,
      fsGet t output = fsGet fs0 output ∨ fsGet t output = none ∨
      fsGet t output = some (encodeAll encChar text)) ∧
    fsGet (convert_file_stream fs0 output temp text encChar failAt).finalFs temp = none ∧
    ((convert_file_stream fs0 output temp text encChar failAt).ok = true →
      fsGet (convert_file_stream fs0 output temp text encChar failAt).finalFs output =
        some (encodeAll encChar text)) :=
  convert_file_stream_spec fs0 output temp text encChar failAt htempout htempbk hfresh

def fsW : Fs := fun q => if q = pstr "/d/in.txt" then some [65] else none

/-- C3 witness: after a concrete run the temp file is gone. -/
theorem C3_witness :
    fsGet (convert_file_stream fsW (pstr "/d/out.txt") (pstr "/d/tmp1") [65]
      encCharId none).finalFs (pstr "/d/tmp1") = none :=
  (C3_atomic_promotion_and_cleanup fsW (pstr "/d/out.txt") (pstr "/d/tmp1") [65]
    encCharId none (by decide) (by decide) (by decide)).2.1

/-- C9 witness: for a concrete input the generated output path differs from
the input path. -/
theorem C9_witness :
    (generate_output_filename (pstr "/d/a.txt") false (fun d => d = pstr "/d")
      (pstr "/w")).1 ≠ pstr "/d/a.txt" :=
  (C9_output_naming (pstr "/d/a.txt") false (fun d => d = pstr "/d") (pstr "/w")).2.2
